import Mathlib

/-!  A shallow embedding of the star-registry ledger of `src/block.js`:
the `Block` entity and the `Blockchain` entity.  The SHA256 digest, the
bitcoin message verifier, the JSON codec for payloads and the wall clock
are external collaborators of the code, so they enter the embedding as
explicit parameters (`H`, `verify`, `parseJson`, `now`/`clock`).
Stateful JS methods become explicit state passing: a method that mutates
its receiver returns the updated value next to its result.  JS promise
settlement is modelled by the rule that the first `resolve`/`reject`
fixes the outcome while execution continues, exactly as in the source. -/

deriving instance DecidableEq for Except

/-- One block, mirroring the fields assigned by the `Block` constructor in
`src/block.js`, plus the `owner` property that `submitStar` adds before
sealing.  `none` stands for JS `null` in `hash`/`previousBlockHash` and
for the `owner` property being absent.  The JS constructor initialises
`time` with the number `0`; `_addBlock` overwrites it with a string
before the field is ever serialised or read, so it is modelled as a
`String` throughout (`"0"` at construction). -/
structure Block where
  hash : Option String
  height : Nat
  body : String
  time : String
  previousBlockHash : Option String
  owner : Option String
  deriving DecidableEq, Repr

/-- JSON rendering of a nullable string field. -/
def serOpt : Option String → String
  | none => "null"
  | some s => "\"" ++ s ++ "\""

/-- `JSON.stringify` of a block object: own enumerable properties in
insertion order (`hash`, `height`, `body`, `time`, `previousBlockHash`,
then `owner` when the property is present).  Both hashing sites of the
source (`_addBlock` and `validate`) stringify exactly this shape. -/
def Block.serialize (b : Block) : String :=
  "\x7b\"hash\":" ++ serOpt b.hash ++ ",\"height\":" ++ toString b.height ++
    ",\"body\":\"" ++ b.body ++ "\",\"time\":\"" ++ b.time ++
    "\",\"previousBlockHash\":" ++ serOpt b.previousBlockHash ++
    (match b.owner with
     | none => ""
     | some o => ",\"owner\":\"" ++ o ++ "\"") ++ "\x7d"

/-- The spread `{ ...self, hash: null }` used by `Block.validate`. -/
def Block.clearHash (b : Block) : Block := { b with hash := none }

/-- `Block.validate()` from `src/block.js`: saves the current hash, then
ASSIGNS the recomputed digest to `self.hash`, and resolves with the
comparison of the saved hash against the new one.  The returned pair is
(resolved boolean, the block after the call — with its `hash` field
overwritten, exactly as in the source). -/
def Block.validate (H : String → String) (b : Block) : Bool × Block :=
  (b.hash == some (H (Block.serialize (Block.clearHash b))),
   { b with hash := some (H (Block.serialize (Block.clearHash b))) })

/-- Lower-case hex digit, as produced by `Buffer.toString('hex')`. -/
def hexDigit (n : Nat) : Char := "0123456789abcdef".toList.getD n '0'

/-- Numeric value of a hex digit (as `parseInt(d, 16)` on the digits the
codec actually produces). -/
def hexVal (c : Char) : Nat := if c.isDigit then c.toNat - 48 else c.toNat - 87

/-- The UTF-8 bytes of one character, as `Buffer(string)` produces them:
one byte below 128, two bytes for 128–2047, three up to 65535, four
beyond. -/
def utf8Bytes (c : Char) : List Nat :=
  let n := c.toNat
  if n < 128 then [n]
  else if n < 2048 then [192 + n / 64, 128 + n % 64]
  else if n < 65536 then [224 + n / 4096, 128 + n / 64 % 64, 128 + n % 64]
  else [240 + n / 262144, 128 + n / 4096 % 64, 128 + n / 64 % 64, 128 + n % 64]

/-- Two lower-case hex digits of one byte. -/
def encByte (n : Nat) : List Char := [hexDigit (n / 16), hexDigit (n % 16)]

/-- Hex encoding of one character: the hex digits of its UTF-8 bytes. -/
def encChar (c : Char) : List Char := (utf8Bytes c).flatMap encByte

/-- `Buffer(text).toString('hex')`: the encoding step of the `Block`
constructor — the text's UTF-8 bytes rendered as lower-case hex.  Note
the asymmetry with `hex2ascii`, which decodes each byte separately with
`String.fromCharCode`: the two are mutually inverse only on ASCII
text. -/
def hexEncode (s : String) : String := String.mk (s.toList.flatMap encChar)

/-- The pair loop of the `hex2ascii` library: every two hex digits become
one `String.fromCharCode` character. -/
def hexPairs : List Char → List Char
  | a :: b :: rest => Char.ofNat (16 * hexVal a + hexVal b) :: hexPairs rest
  | [a] => [Char.ofNat (hexVal a)]
  | [] => []

/-- The `hex2ascii` collaborator used by `Block.getBData`. -/
def hex2ascii (s : String) : String := String.mk (hexPairs s.toList)

/-- `Block.getBData()`: decode the body with `hex2ascii`, `JSON.parse` it
(a parse failure rejects with a syntax error before the height test),
then resolve with the object when `height > 0`, else reject with the
`Genesis Block` error.  `parseJson` is the `JSON.parse` collaborator. -/
def Block.getBData {α : Type} (parseJson : String → Option α) (b : Block) : Except String α :=
  match parseJson (hex2ascii b.body) with
  | none => Except.error "SyntaxError"
  | some v => if 0 < b.height then Except.ok v else Except.error "Genesis Block"

/-- `new Block(data)` where `jsonText` is `JSON.stringify(data)`: the body
is stored hex-encoded, every other field starts unset. -/
def Block.new (jsonText : String) : Block :=
  { hash := none, height := 0, body := hexEncode jsonText, time := "0",
    previousBlockHash := none, owner := none }

/-- The `block.owner = address` assignment of `submitStar` (with
`owner := none` for blocks created without it). -/
def Block.withOwner (b : Block) (o : Option String) : Block := { b with owner := o }

/-- `JSON.stringify({data: 'Genesis Block'})`, the genesis payload. -/
def genesisData : String := "\x7b\"data\":\"Genesis Block\"\x7d"

/-- The `Blockchain` state: the `chain` array and the `height` field.
A `none` entry is a JS `undefined` pushed onto the array (the `.then`
handler of `_addBlock` pushes whatever the settled promise produced,
which is `undefined` on the failure path). -/
structure Blockchain where
  chain : List (Option Block)
  height : Int
  deriving DecidableEq, Repr

/-- The `Blockchain` constructor state before `initializeChain` runs. -/
def Blockchain.empty : Blockchain := { chain := [], height := -1 }

/-- `Blockchain._addBlock(block)`: set `previousBlockHash` from the tail
(`null` when the slot is empty or holds a falsy `undefined` entry), set
`height` and `time`, seal with the digest, then run the structural check.
The inner promise resolves with the block or rejects — but the attached
`.catch` swallows the rejection (logging it) and the `.then` handler
pushes its argument (the block, or `undefined` after a failure) and
updates `this.height` in both cases.  The returned pair is (the value the
outer promise resolves with, the updated ledger). -/
def Blockchain._addBlock (H : String → String) (clock : String) (b : Block)
    (s : Blockchain) : Option Block × Blockchain :=
  let prev : Option String :=
    match s.chain.getLast? with
    | some (some lb) => lb.hash
    | _ => none
  let b1 : Block := { b with previousBlockHash := prev, height := s.chain.length, time := clock }
  let h := H (Block.serialize b1)
  let b2 : Block := { b1 with hash := some h }
  let ok : Bool := (h != "") && (h.length == 64) && (b2.height == s.chain.length) && (clock != "")
  if ok then (some b2, { chain := s.chain ++ [some b2], height := (s.chain.length : Int) + 1 - 1 })
  else (none, { chain := s.chain ++ [none], height := (s.chain.length : Int) + 1 - 1 })

/-- `initializeChain()`: create the genesis block when `height === -1`. -/
def Blockchain.initializeChain (H : String → String) (clock : String) (s : Blockchain) : Blockchain :=
  if s.height = -1 then (Blockchain._addBlock H clock (Block.new genesisData) s).2 else s

/-- Split a character list at every separator occurrence, JS
`String.prototype.split` style (keeps empty pieces). -/
def splitChars (sep : Char) : List Char → List Char → List String
  | [], acc => [String.mk acc.reverse]
  | c :: rest, acc =>
    if c = sep then String.mk acc.reverse :: splitChars sep rest []
    else splitChars sep rest (c :: acc)

/-- JS `message.split(':')`. -/
def jsSplitColon (s : String) : List String := splitChars ':' s.toList []

/-- JS `parseInt` in base 10: skip leading whitespace, optional sign, then
the longest digit prefix; `none` is `NaN` (no digits at all). -/
def parseIntJS (s : String) : Option Int :=
  let l := s.toList.dropWhile (fun c => c.isWhitespace)
  let signed : Int × List Char :=
    match l with
    | '-' :: r => (-1, r)
    | '+' :: r => (1, r)
    | r => (1, r)
  let ds := signed.2.takeWhile (fun c => c.isDigit)
  if ds.isEmpty then none
  else some (signed.1 * ((ds.foldl (fun a c => a * 10 + (c.toNat - 48)) 0 : Nat) : Int))

/-- `Blockchain.submitStar(address, message, signature, star)`.  The
source rejects on a timeout and on a failed verification but never
returns early, so the block is created, `verify` is invoked and
`_addBlock` runs (appending to the chain) on every path; only the FIRST
settlement fixes the outcome.  A `NaN` request time (`parseIntJS = none`)
makes `spendTime >= 5 * 60` false, so no timeout fires.  `starJson` is
`JSON.stringify({star})`, `now` the parsed current time in seconds,
`clock` the time string `_addBlock` stamps.  Result: (the settled
outcome, the updated ledger, whether `verify` was invoked — literally
`true`, because the source has no early return before the call). -/
def Blockchain.submitStar (H : String → String) (verify : String → String → String → Bool)
    (now : Int) (address message signature starJson : String)
    (clock : String) (s : Blockchain) : Except String (Option Block) × Blockchain × Bool :=
  let requestTime : Option Int := ((jsSplitColon message).get? 1).bind parseIntJS
  let timedOut : Bool :=
    match requestTime with
    | some rt => decide (5 * 60 ≤ now - rt)
    | none => false
  let sigOk : Bool := verify message address signature
  let candidate : Block := Block.withOwner (Block.new starJson) (some address)
  let r := Blockchain._addBlock H clock candidate s
  let outcome : Except String (Option Block) :=
    if timedOut then Except.error "Star submission request timed out."
    else if sigOk then Except.ok r.1
    else Except.error "Invalid message."
  (outcome, r.2, true)

/-- The two error shapes `validateChain` pushes onto `errorLog`:
`Invalid block #height: hash` and the broken-link message for `height`. -/
inductive ChainErr where
  | invalidBlock (height : Nat) (hash : Option String)
  | invalidLink (height : Nat)
  deriving DecidableEq, Repr

/-- The loop of `validateChain`: `done` holds the already-visited array
prefix (with the in-place mutations `validate()` made), `todo` the rest.
A `none` (`undefined`) entry crashes the loop (`block.validate` on
`undefined`), as does the predecessor lookup when the `filter` callback
touches an `undefined` entry or when `filter(...)[0]` is `undefined` and
`.hash` is read from it; a crash rejects the promise (`Except.error ()`).
Otherwise the accumulated `errorLog` comes back with the final array. -/
def vcGo (H : String → String) :
    List (Option Block) → List (Option Block) → List ChainErr →
    Except Unit (List ChainErr) × List (Option Block)
  | done, [], errs => (Except.ok errs, done)
  | done, none :: rest, _ => (Except.error (), done ++ none :: rest)
  | done, some b :: rest, errs =>
    let p := Block.validate H b
    let arr := done ++ some p.2 :: rest
    if p.1 then
      if 0 < p.2.height then
        if arr.any (fun x => x.isNone) then (Except.error (), arr)
        else
          match ((arr.filterMap id).filter (fun x => x.height == p.2.height - 1)).head? with
          | none => (Except.error (), arr)
          | some prev =>
            if p.2.previousBlockHash == prev.hash then vcGo H (done ++ [some p.2]) rest errs
            else vcGo H (done ++ [some p.2]) rest (errs ++ [ChainErr.invalidLink p.2.height])
      else vcGo H (done ++ [some p.2]) rest errs
    else vcGo H (done ++ [some p.2]) rest (errs ++ [ChainErr.invalidBlock p.2.height p.2.hash])

/-- What `validateChain` resolves or rejects with. -/
inductive VCOut where
  | errs (l : List ChainErr)
  | sentinel (msg : String)
  | crashed
  deriving DecidableEq, Repr

/-- `Blockchain.validateChain()`: run the loop over the chain; resolve
with the error list when it is non-empty, with the sentinel string
`'No errors detected.'` when it is empty, and reject on a crash. -/
def Blockchain.validateChain (H : String → String) (s : Blockchain) : VCOut × Blockchain :=
  match vcGo H [] s.chain [] with
  | (Except.error _, c) => (VCOut.crashed, { s with chain := c })
  | (Except.ok es, c) =>
    (if 0 < es.length then VCOut.errs es else VCOut.sentinel "No errors detected.",
     { s with chain := c })

/-- Default block used by `List.getD` index reasoning. -/
def dBlock : Block :=
  { hash := none, height := 0, body := "", time := "", previousBlockHash := none, owner := none }

/-- A block is correctly sealed for digest `H`: its stored hash is the
digest of its serialisation with the hash field cleared. -/
def sealedOK (H : String → String) (b : Block) : Prop :=
  b.hash = some (H (Block.serialize (Block.clearHash b)))

instance (H : String → String) (b : Block) : Decidable (sealedOK H b) :=
  inferInstanceAs (Decidable (b.hash = some (H (Block.serialize (Block.clearHash b)))))

/-- Well-formedness of a plain block list: heights are the positions,
every block is correctly sealed, the genesis entry has a null
`previousBlockHash`, and every later entry links to the hash of its
predecessor. -/
def blocksInv (H : String → String) (l : List Block) : Prop :=
  ∀ i, i < l.length →
    (l.getD i dBlock).height = i ∧ sealedOK H (l.getD i dBlock) ∧
      (i = 0 → (l.getD i dBlock).previousBlockHash = none) ∧
      (0 < i → (l.getD i dBlock).previousBlockHash = (l.getD (i - 1) dBlock).hash)

instance (H : String → String) (l : List Block) : Decidable (blocksInv H l) := by
  unfold blocksInv; infer_instance

/-- Ledger states reachable by successful appends from a freshly
constructed ledger: the constructor runs `initializeChain` (a successful
genesis append), and each later step is a successful `_addBlock` of a
candidate built by the `Block` constructor (with an optional owner, as
on the `submitStar` path). -/
inductive Reachable (H : String → String) : Blockchain → Prop where
  | start (clock : String)
      (hok : (Blockchain._addBlock H clock (Block.new genesisData) Blockchain.empty).1.isSome = true) :
      Reachable H (Blockchain.initializeChain H clock Blockchain.empty)
  | next (s : Blockchain) (data clock : String) (owner : Option String)
      (hs : Reachable H s)
      (hok : (Blockchain._addBlock H clock (Block.withOwner (Block.new data) owner) s).1.isSome = true) :
      Reachable H ((Blockchain._addBlock H clock (Block.withOwner (Block.new data) owner) s).2)


/-! ### Concrete fixtures: a constant digest, a worked chain, tampered
copies.  These instantiate the abstract collaborators for closed-form
evaluations. -/

/-- A 64-character digest value. -/
def hashA : String := "aaaaaaaaaaaaaaaaaaaaaaaaaaaaaaaaaaaaaaaaaaaaaaaaaaaaaaaaaaaaaaaa"

/-- A second, different 64-character digest value. -/
def hashB : String := "bbbbbbbbbbbbbbbbbbbbbbbbbbbbbbbbbbbbbbbbbbbbbbbbbbbbbbbbbbbbbbbb"

/-- A digest provider that satisfies the 64-hex-characters contract. -/
def Hc : String → String := fun _ => hashA

/-- A freshly constructed ledger (genesis created at clock `"100"`). -/
def chainW : Blockchain := Blockchain.initializeChain Hc "100" Blockchain.empty

/-- `chainW` after one successful owner append. -/
def chainW2 : Blockchain :=
  (Blockchain._addBlock Hc "101"
    (Block.withOwner (Block.new "\x7b\"star\":1\x7d") (some "addr")) chainW).2

/-- A digest provider whose structural check always fails (2 characters). -/
def Hbad : String -> String := fun _ => "xx"

/-- A concrete sealed three-block chain (sealed for any constant-`hashA`
digest on its members, and for `H1`/`H2` below). -/
def gBw : Block :=
  { hash := some hashA, height := 0, body := "00", time := "1",
    previousBlockHash := none, owner := none }

/-- Height-1 member of the concrete chain. -/
def b1w : Block :=
  { hash := some hashA, height := 1, body := "11", time := "2",
    previousBlockHash := some hashA, owner := none }

/-- Height-2 member of the concrete chain. -/
def b2w : Block :=
  { hash := some hashA, height := 2, body := "22", time := "3",
    previousBlockHash := some hashA, owner := none }

/-- `b1w` with its `height` field mutated out-of-band. -/
def tHeight : Block := { b1w with height := 5 }

/-- `b1w` with its `hash` field mutated out-of-band. -/
def tHash : Block := { b1w with hash := some hashB }

/-- `b1w` with its `body` field mutated out-of-band. -/
def tBody : Block := { b1w with body := "ff" }

/-- A digest that separates the height-tampered serialisation from every
other input (a collision-free stand-in on the inputs that matter). -/
def H1 : String → String :=
  fun s => if s = Block.serialize (Block.clearHash tHeight) then hashB else hashA

/-- A digest that separates the body-tampered serialisation from every
other input. -/
def H2 : String → String :=
  fun s => if s = Block.serialize (Block.clearHash tBody) then hashB else hashA

/-- A height-0 record with a decodable body (`hexEncode "7"`). -/
def wGenesis : Block :=
  { hash := some hashA, height := 0, body := hexEncode "7", time := "1",
    previousBlockHash := none, owner := none }

/-- A height-1 record with a decodable body (`hexEncode "7"`). -/
def wStar : Block :=
  { hash := some hashA, height := 1, body := hexEncode "7", time := "1",
    previousBlockHash := some hashA, owner := none }

/-- A height-1 record whose body was produced by the encoding step from
the JSON text of the non-ASCII payload `"é"` (UTF-8 bytes `22 c3 a9 22`,
hex `22c3a922`). -/
def bNonAscii : Block :=
  { hash := some hashA, height := 1, body := hexEncode "\"é\"", time := "1",
    previousBlockHash := some hashA, owner := none }

/-! ### List utilities for index-based reasoning over the chain array -/

lemma getD_set_self {α : Type} (l : List α) (i : Nat) (x d : α) (h : i < l.length) :
    (l.set i x).getD i d = x := by
  rw [List.getD_eq_getElem _ _ (by simpa using h), List.getElem_set]
  simp

lemma getD_set_ne {α : Type} (l : List α) {i j : Nat} (x d : α) (h : i ≠ j) :
    (l.set i x).getD j d = l.getD j d := by
  by_cases hj : j < l.length
  · rw [List.getD_eq_getElem _ _ (by simpa using hj), List.getD_eq_getElem _ _ hj,
      List.getElem_set_ne h]
  · rw [List.getD_eq_default _ _ (by simpa using Nat.le_of_not_lt hj),
      List.getD_eq_default _ _ (Nat.le_of_not_lt hj)]

lemma take_set_same {α : Type} (l : List α) (i : Nat) (x : α) :
    (l.set i x).take i = l.take i := by
  induction l generalizing i with
  | nil => simp
  | cons a tl ih =>
    cases i with
    | zero => simp
    | succ n => simp [List.set_cons_succ, List.take_succ_cons, ih]

lemma drop_set_succ {α : Type} (l : List α) (i : Nat) (x : α) :
    (l.set i x).drop (i + 1) = l.drop (i + 1) := by
  rw [List.drop_set]
  simp

lemma drop_getD_cons {α : Type} (l : List α) (d : α) (n : Nat) (h : n < l.length) :
    l.drop n = l.getD n d :: l.drop (n + 1) := by
  rw [List.drop_eq_getElem_cons h, List.getD_eq_getElem _ _ h]

lemma take_succ_getD {α : Type} (l : List α) (d : α) (n : Nat) (h : n < l.length) :
    l.take (n + 1) = l.take n ++ [l.getD n d] := by
  rw [List.take_succ, List.getElem?_eq_getElem h, List.getD_eq_getElem _ _ h]
  rfl

lemma any_isNone_map_some {α : Type} (l : List α) :
    ((l.map some).any fun x => x.isNone) = false := by
  induction l with
  | nil => rfl
  | cons a tl ih => simp [ih]

lemma filterMap_id_map_some {α : Type} (l : List α) : (l.map some).filterMap id = l := by
  induction l with
  | nil => rfl
  | cons a tl ih => simp [List.filterMap_cons, ih]

lemma getD_map_some {α : Type} (l : List α) (i : Nat) (h : i < l.length) (d : α) :
    (l.map some).getD i none = some (l.getD i d) := by
  rw [List.getD_eq_getElem _ _ (by simpa using h), List.getD_eq_getElem _ _ h,
    List.getElem_map]

lemma getLast?_map_some {α : Type} (l : List α) (d : α) (h : l ≠ []) :
    (l.map some).getLast? = some (some (l.getD (l.length - 1) d)) := by
  have hl : 0 < l.length := List.length_pos.mpr h
  rw [List.getLast?_eq_getElem?, List.getElem?_map, List.length_map,
    List.getElem?_eq_getElem (by omega), List.getD_eq_getElem _ _ (by omega)]
  rfl

/-- In a list whose block heights are `off, off + 1, ...`, the first block
the `filter` keeps for target height `k` is the one at position `k - off`. -/
lemma filter_height_head (l : List Block) (off k : Nat)
    (hidx : ∀ i, i < l.length → (l.getD i dBlock).height = off + i)
    (h1 : off ≤ k) (h2 : k < off + l.length) :
    ((l.filter fun x => x.height == k).head?) = some (l.getD (k - off) dBlock) := by
  induction l generalizing off with
  | nil => simp at h2; omega
  | cons a tl ih =>
    have ha : a.height = off := by simpa using hidx 0 (by simp)
    by_cases hk : k = off
    · subst hk
      rw [List.filter_cons, if_pos (by simp [ha]), List.head?_cons]
      simp
    · have hlt : off < k := by omega
      rw [List.filter_cons, if_neg (by simp [ha]; omega)]
      have h2' : k < off + 1 + tl.length := by
        simp only [List.length_cons] at h2; omega
      have hidx' : ∀ i, i < tl.length → (tl.getD i dBlock).height = off + 1 + i := by
        intro i hi
        have := hidx (i + 1) (by simp only [List.length_cons]; omega)
        rw [List.getD_cons_succ] at this
        omega
      obtain ⟨m, hm⟩ : ∃ m, k - off = m + 1 := ⟨k - off - 1, by omega⟩
      have hm' : k - (off + 1) = m := by omega
      rw [ih (off + 1) hidx' (by omega) h2', hm, hm', List.getD_cons_succ]

/-! ### Small facts about `Block.validate` and sealing -/

lemma clearHash_set_hash (b : Block) (h : String) :
    Block.clearHash { b with hash := some h } = Block.clearHash b := rfl

lemma clearHash_eq_self (b : Block) (hb : b.hash = none) : Block.clearHash b = b := by
  cases b
  simp only [Block.clearHash] at hb ⊢
  simp_all

lemma validate_snd (H : String → String) (b : Block) :
    (Block.validate H b).2 = { b with hash := some (H (Block.serialize (Block.clearHash b))) } := rfl

lemma validate_sealed (H : String → String) (b : Block) (hs : sealedOK H b) :
    Block.validate H b = (true, b) := by
  simp only [sealedOK] at hs
  obtain ⟨bh, bht, bb, bt, bp, bo⟩ := b
  simp only [Block.clearHash] at hs
  subst hs
  simp only [Block.validate, Block.clearHash, beq_self_eq_true]

/-- A mutated block fails the hash comparison inside `validate`, provided
the original was correctly sealed and either only the hash field changed,
or the content changed and the digest separates the two serialisations. -/
lemma validate_fst_false (H : String → String) (t orig : Block) (hso : sealedOK H orig)
    (hcase : (Block.clearHash t = Block.clearHash orig ∧ t.hash ≠ orig.hash) ∨
      (t.hash = orig.hash ∧
        H (Block.serialize (Block.clearHash t)) ≠ H (Block.serialize (Block.clearHash orig)))) :
    (Block.validate H t).1 = false := by
  simp only [sealedOK] at hso
  simp only [Block.validate]
  rcases hcase with ⟨hc, hne⟩ | ⟨hc, hne⟩
  · rw [hc, ← hso]
    exact beq_eq_false_iff_ne.mpr hne
  · rw [hc, hso]
    exact beq_eq_false_iff_ne.mpr (by simpa using hne.symm)

/-- Reassembling the array `validateChain` iterates over. -/
lemma arr_assemble (full : List Block) (n : Nat) (h : n < full.length) :
    (full.take n).map some ++ some (full.getD n dBlock) :: (full.drop (n + 1)).map some =
      full.map some := by
  conv_rhs => rw [← List.take_append_drop n full, drop_getD_cons full dBlock n h]
  rw [List.map_append, List.map_cons]

/-- Running the `validateChain` loop across a stretch of correctly sealed,
correctly linked blocks adds no errors and leaves every block unchanged:
positions `n ≤ j < m` of `full` are clean, so the loop walks from
position `n` to position `m` without touching `errs`. -/
lemma vcGo_seg (H : String → String) (full : List Block)
    (hIdx : ∀ i, i < full.length → (full.getD i dBlock).height = i) :
    ∀ (k n m : Nat) (errs : List ChainErr), m - n = k → n ≤ m → m ≤ full.length →
      (∀ j, n ≤ j → j < m → sealedOK H (full.getD j dBlock)) →
      (∀ j, n ≤ j → 0 < j → j < m →
        (full.getD j dBlock).previousBlockHash = (full.getD (j - 1) dBlock).hash) →
      vcGo H ((full.take n).map some) ((full.drop n).map some) errs =
        vcGo H ((full.take m).map some) ((full.drop m).map some) errs := by
  intro k
  induction k with
  | zero =>
    intro n m errs hk hnm _ _ _
    have : n = m := by omega
    subst this; rfl
  | succ k ih =>
    intro n m errs hk hnm hml hSeal hLink
    have hn : n < m := by omega
    have hnf : n < full.length := by omega
    have hval := validate_sealed H (full.getD n dBlock) (hSeal n le_rfl hn)
    have hstep : (full.take n).map some ++ [some (full.getD n dBlock)] =
        (full.take (n + 1)).map some := by
      rw [take_succ_getD full dBlock n hnf, List.map_append, List.map_cons, List.map_nil]
    have htail : ∀ e, vcGo H ((full.take n).map some ++ [some (full.getD n dBlock)])
        ((full.drop (n + 1)).map some) e =
        vcGo H ((full.take m).map some) ((full.drop m).map some) e := by
      intro e
      rw [hstep]
      exact ih (n + 1) m e (by omega) (by omega) hml
        (fun j h1 h2 => hSeal j (by omega) h2)
        (fun j h1 h2 h3 => hLink j (by omega) h2 h3)
    rw [drop_getD_cons full dBlock n hnf, List.map_cons]
    simp only [vcGo, hval, arr_assemble full n hnf, any_isNone_map_some,
      filterMap_id_map_some, Bool.false_eq_true, if_false, eq_self_iff_true, if_true]
    have hbh : (full.getD n dBlock).height = n := hIdx n hnf
    by_cases hn0 : 0 < n
    · rw [hbh, if_pos hn0, filter_height_head full 0 (n - 1)
        (fun i hi => by rw [hIdx i hi]; omega) (by omega) (by simp only [Nat.zero_add]; omega)]
      simp only [Nat.sub_zero]
      rw [hLink n le_rfl hn0 hn]
      simp only [beq_self_eq_true, eq_self_iff_true, if_true]
      exact htail errs
    · rw [hbh, if_neg (by omega)]
      exact htail errs

/-- The loop over a fully well-formed chain finds nothing. -/
lemma vcGo_all (H : String → String) (full : List Block) (hInv : blocksInv H full)
    (errs : List ChainErr) :
    vcGo H [] (full.map some) errs = (Except.ok errs, full.map some) := by
  have h := vcGo_seg H full (fun i hi => (hInv i hi).1) full.length 0 full.length errs
    (by omega) (Nat.zero_le _) le_rfl
    (fun j _ hj => (hInv j hj).2.1)
    (fun j _ h0 hj => (hInv j hj).2.2.2 h0)
  simp only [List.take_zero, List.map_nil, List.drop_zero, List.take_length,
    List.drop_length] at h
  rw [h]
  simp only [vcGo]

/-- `validateChain` on any well-formed chain resolves with the sentinel
string (the error log stayed empty) and leaves the state unchanged. -/
lemma validateChain_inv (H : String → String) (s : Blockchain) (bs : List Block)
    (hc : s.chain = bs.map some) (hInv : blocksInv H bs) :
    Blockchain.validateChain H s = (VCOut.sentinel "No errors detected.", s) := by
  unfold Blockchain.validateChain
  rw [hc, vcGo_all H bs hInv []]
  simp only [List.length_nil, Nat.lt_irrefl, if_false]
  rw [← hc]

/-- What a SUCCESSFUL `_addBlock` does to a well-formed ledger: the new
block is sealed over its serialisation-with-null-hash, linked to the old
tail, placed at the next height; the invariant is preserved and the
`height` field becomes `old length + 1 - 1`. -/
lemma addBlock_success (H : String → String) (clock : String) (cand : Block) (s : Blockchain)
    (bs : List Block) (hc : s.chain = bs.map some) (hInv : blocksInv H bs)
    (hch : cand.hash = none)
    (hok : (Blockchain._addBlock H clock cand s).1.isSome = true) :
    ∃ b2 : Block,
      (Blockchain._addBlock H clock cand s).2.chain = (bs ++ [b2]).map some ∧
      blocksInv H (bs ++ [b2]) ∧
      (Blockchain._addBlock H clock cand s).2.height = (bs.length : Int) + 1 - 1 := by
  simp only [Blockchain._addBlock] at hok ⊢
  split at hok
  case isFalse h => simp at hok
  case isTrue h =>
    rw [if_pos h]
    set prevv : Option String :=
      (match s.chain.getLast? with
       | some (some lb) => lb.hash
       | _ => none) with hprev
    set b1 : Block :=
      { cand with previousBlockHash := prevv, height := s.chain.length, time := clock } with hb1
    set b2 : Block := { b1 with hash := some (H (Block.serialize b1)) } with hb2
    have hb1h : b1.hash = none := hch
    have hcl : Block.clearHash b2 = b1 := by
      rw [hb2, clearHash_set_hash, clearHash_eq_self _ hb1h]
    have hlen : s.chain.length = bs.length := by rw [hc, List.length_map]
    have hb2hash : b2.hash = some (H (Block.serialize b1)) := by rw [hb2]
    have hb2height : b2.height = bs.length := by rw [hb2, hb1, ← hlen]
    have hb2prev : b2.previousBlockHash = prevv := by rw [hb2, hb1]
    refine ⟨b2, ?_, ?_, ?_⟩
    · show s.chain ++ [some b2] = (bs ++ [b2]).map some
      rw [hc, List.map_append, List.map_cons, List.map_nil]
    · intro i hi
      simp only [List.length_append, List.length_cons, List.length_nil] at hi
      by_cases hilt : i < bs.length
      · have e1 := List.getD_append bs [b2] dBlock i hilt
        have e2 : i - 1 < bs.length := by omega
        have e3 := List.getD_append bs [b2] dBlock (i - 1) e2
        obtain ⟨q1, q2, q3, q4⟩ := hInv i hilt
        exact ⟨by rw [e1]; exact q1, by rw [e1]; exact q2, by rw [e1]; exact q3,
          fun h0 => by rw [e1, e3]; exact q4 h0⟩
      · have hieq : i = bs.length := by omega
        subst hieq
        rw [List.getD_append_right bs [b2] dBlock _ le_rfl, Nat.sub_self, List.getD_cons_zero]
        refine ⟨hb2height, ?_, ?_, ?_⟩
        · show b2.hash = some (H (Block.serialize (Block.clearHash b2)))
          rw [hcl, hb2hash]
        · intro h0
          rw [hb2prev, hprev, hc]
          have hbs : bs = [] := by
            cases bs with
            | nil => rfl
            | cons x xs => simp at h0
          rw [hbs]
          rfl
        · intro h0
          have hne : bs ≠ [] := by
            intro hz
            rw [hz] at h0
            simp at h0
          have e4 : bs.length - 1 < bs.length := by
            have := List.length_pos.mpr hne
            omega
          rw [List.getD_append bs [b2] dBlock _ e4, hb2prev, hprev, hc,
            getLast?_map_some bs dBlock hne]
    · show (s.chain.length : Int) + 1 - 1 = (bs.length : Int) + 1 - 1
      rw [hlen]

/-- Every reachable ledger state is a fully-`some` chain satisfying the
block invariant, with the `height` field tracking `length - 1`. -/
lemma reach_spec (H : String → String) (s : Blockchain) (hr : Reachable H s) :
    ∃ bs : List Block, s.chain = bs.map some ∧ blocksInv H bs ∧
      s.height = (bs.length : Int) - 1 ∧ 0 < bs.length := by
  induction hr with
  | start clock hok =>
    have h0 : Blockchain.initializeChain H clock Blockchain.empty =
        (Blockchain._addBlock H clock (Block.new genesisData) Blockchain.empty).2 := by
      unfold Blockchain.initializeChain
      rw [if_pos (show Blockchain.empty.height = -1 from rfl)]
    obtain ⟨b2, hch, hinv, hh⟩ := addBlock_success H clock (Block.new genesisData)
      Blockchain.empty [] rfl (fun i hi => by simp at hi) rfl hok
    refine ⟨[b2], ?_, ?_, ?_, by simp⟩
    · rw [h0]
      simpa using hch
    · simpa using hinv
    · rw [h0, hh]
      norm_num
  | next s' data clock owner hs hok ih =>
    obtain ⟨bs, hc, hinv, hh, hpos⟩ := ih
    obtain ⟨b2, hch, hinv2, hh2⟩ := addBlock_success H clock
      (Block.withOwner (Block.new data) owner) s' bs hc hinv rfl hok
    refine ⟨bs ++ [b2], hch, hinv2, ?_, by simp⟩
    rw [hh2]
    simp only [List.length_append, List.length_cons, List.length_nil]
    push_cast
    ring

/-! ### Reachability of the concrete fixtures -/

lemma reachW : Reachable Hc chainW := Reachable.start "100" (by decide)

lemma reachW2 : Reachable Hc chainW2 :=
  Reachable.next chainW "\x7b\"star\":1\x7d" "101" (some "addr") reachW (by decide)

/-! ### The claims -/

/-- C9: after `validate()` completes, the stored hash always equals the
digest recomputed over the content with the hash field cleared, so a
second `validate()` with no intervening mutation returns true — checking
erases the tamper evidence. -/
theorem c9_validate_rewrites_then_passes (H : String → String) (b : Block) :
    ((Block.validate H b).2).hash = some (H (Block.serialize (Block.clearHash b))) ∧
    (Block.validate H ((Block.validate H b).2)).1 = true := by
  refine ⟨rfl, ?_⟩
  simp only [Block.validate, clearHash_set_hash, beq_self_eq_true]

/-- C1 (the code violates the claim): `validate()` is NOT read-only.  On a
correctly sealed record whose body was then mutated, `validate()` resolves
false once, but overwrites the stored hash with the recomputed digest —
after the call the stored hash differs from what was stored before it, and
a repeated `validate()` reports the tampered record as valid. -/
theorem c1_validate_overwrites_stored_hash :
    sealedOK H2 b1w ∧
    (Block.validate H2 tBody).1 = false ∧
    ((Block.validate H2 tBody).2).hash ≠ tBody.hash ∧
    (Block.validate H2 ((Block.validate H2 tBody).2)).1 = true := by decide

/-- C2 (the code violates the claim): with an elapsed time of 400 s ≥ 300 s
the promise does reject with the timeout error, but the reject does not
return: the signature verifier is still invoked and `_addBlock` still runs,
so a record is appended and the height grows by one. -/
theorem c2_timeout_rejects_but_still_verifies_and_appends :
    (Blockchain.submitStar Hc (fun _ _ _ => true) 400 "addr" "addr:0:starRegistry" "sig"
        "\x7b\"star\":\x7b\x7d\x7d" "400" chainW).1 =
      Except.error "Star submission request timed out." ∧
    (Blockchain.submitStar Hc (fun _ _ _ => true) 400 "addr" "addr:0:starRegistry" "sig"
        "\x7b\"star\":\x7b\x7d\x7d" "400" chainW).2.1.chain.length = chainW.chain.length + 1 ∧
    (Blockchain.submitStar Hc (fun _ _ _ => true) 400 "addr" "addr:0:starRegistry" "sig"
        "\x7b\"star\":\x7b\x7d\x7d" "400" chainW).2.1.height = chainW.height + 1 ∧
    (Blockchain.submitStar Hc (fun _ _ _ => true) 400 "addr" "addr:0:starRegistry" "sig"
        "\x7b\"star\":\x7b\x7d\x7d" "400" chainW).2.2 = true := by decide

/-- C3 (the code violates the claim): when the structural check fails
(here: a digest of length 2), `_addBlock` does NOT leave the ledger
unchanged and surfaces no error — the rejection is swallowed by the
`.catch`, the outer promise resolves with `undefined` (`none`), and the
`.then` handler still pushes `undefined` and advances the height. -/
theorem c3_failed_append_swallows_error_and_mutates :
    (Blockchain._addBlock Hbad "1" (Block.new genesisData) Blockchain.empty).1 = none ∧
    (Blockchain._addBlock Hbad "1" (Block.new genesisData) Blockchain.empty).2.chain = [none] ∧
    (Blockchain._addBlock Hbad "1" (Block.new genesisData) Blockchain.empty).2.height = 0 ∧
    Blockchain.empty.chain = [] ∧ Blockchain.empty.height = -1 := by decide

/-- C4: in every state reachable by successful appends from a fresh
ledger, every entry holds a block whose stored hash is the digest of its
content with the hash field cleared, the entry at position 0 has a null
`previousBlockHash`, and every later entry links to the stored hash of
its predecessor. -/
theorem c4_chain_link_and_seal_invariant (H : String → String) (s : Blockchain)
    (hr : Reachable H s) :
    ∀ i, i < s.chain.length → ∃ b : Block,
      s.chain.getD i none = some b ∧
      b.hash = some (H (Block.serialize (Block.clearHash b))) ∧
      (i = 0 → b.previousBlockHash = none) ∧
      (0 < i → ∃ pb : Block, s.chain.getD (i - 1) none = some pb ∧
        b.previousBlockHash = pb.hash) := by
  obtain ⟨bs, hc, hinv, _, _⟩ := reach_spec H s hr
  intro i hi
  rw [hc, List.length_map] at hi
  rw [hc]
  refine ⟨bs.getD i dBlock, getD_map_some bs i hi dBlock, (hinv i hi).2.1,
    (hinv i hi).2.2.1, ?_⟩
  intro h0
  exact ⟨bs.getD (i - 1) dBlock, getD_map_some bs (i - 1) (by omega) dBlock,
    (hinv i hi).2.2.2 h0⟩

/-- Witness for C4 at a concrete two-block ledger, position 1. -/
theorem c4_chain_link_and_seal_invariant_inst :
    ∃ b : Block,
      chainW2.chain.getD 1 none = some b ∧
      b.hash = some (Hc (Block.serialize (Block.clearHash b))) ∧
      (1 = 0 → b.previousBlockHash = none) ∧
      (0 < 1 → ∃ pb : Block, chainW2.chain.getD 0 none = some pb ∧
        b.previousBlockHash = pb.hash) :=
  c4_chain_link_and_seal_invariant Hc chainW2 reachW2 1 (by decide)

/-- C6 (the code violates the claim): on every ledger reachable by
successful appends, `validateChain()` finds no errors, but it does NOT
resolve with the empty error list — it resolves with the sentinel string
`'No errors detected.'`. -/
theorem c6_validateChain_resolves_sentinel_not_empty_list (H : String → String)
    (s : Blockchain) (hr : Reachable H s) :
    (Blockchain.validateChain H s).1 = VCOut.sentinel "No errors detected." ∧
    ∀ l : List ChainErr, (Blockchain.validateChain H s).1 ≠ VCOut.errs l := by
  obtain ⟨bs, hc, hinv, _, _⟩ := reach_spec H s hr
  rw [validateChain_inv H s bs hc hinv]
  exact ⟨rfl, fun l h => VCOut.noConfusion h⟩

/-- Witness for C6 at the concrete fresh ledger. -/
theorem c6_validateChain_resolves_sentinel_not_empty_list_inst :
    (Blockchain.validateChain Hc chainW).1 = VCOut.sentinel "No errors detected." ∧
    ∀ l : List ChainErr, (Blockchain.validateChain Hc chainW).1 ≠ VCOut.errs l :=
  c6_validateChain_resolves_sentinel_not_empty_list Hc chainW reachW

/-- C7: the constructor starts at height `-1`; on every reachable state
the `height` field equals `length of the chain - 1`; EVERY `_addBlock`
call (the only mutation point) moves `height` up by exactly 1 from there;
and no two entries of a reachable chain share a block height. -/
theorem c7_height_tracks_length :
    Blockchain.empty.height = -1 ∧ Blockchain.empty.chain = [] ∧
    ∀ (H : String → String) (s : Blockchain), Reachable H s →
      s.height = (s.chain.length : Int) - 1 ∧
      (∀ (cand : Block) (clock : String),
        ((Blockchain._addBlock H clock cand s).2).height = s.height + 1) ∧
      (∀ i j, i < s.chain.length → j < s.chain.length →
        ∀ bi bj : Block, s.chain.getD i none = some bi → s.chain.getD j none = some bj →
          bi.height = bj.height → i = j) := by
  refine ⟨rfl, rfl, fun H s hr => ?_⟩
  obtain ⟨bs, hc, hinv, hh, hpos⟩ := reach_spec H s hr
  have hlen : s.chain.length = bs.length := by rw [hc, List.length_map]
  refine ⟨by rw [hh, hlen], ?_, ?_⟩
  · intro cand clock
    have hgoal : ((Blockchain._addBlock H clock cand s).2).height =
        (s.chain.length : Int) + 1 - 1 := by
      simp only [Blockchain._addBlock]
      split
      · rfl
      · rfl
    rw [hgoal, hh, hlen]
    ring
  · intro i j hi hj bi bj hbi hbj hhe
    rw [hc, List.length_map] at hi hj
    rw [hc, getD_map_some bs i hi dBlock] at hbi
    rw [hc, getD_map_some bs j hj dBlock] at hbj
    have ei : bi = bs.getD i dBlock := by injection hbi.symm
    have ej : bj = bs.getD j dBlock := by injection hbj.symm
    rw [ei, ej, (hinv i hi).1, (hinv j hj).1] at hhe
    exact hhe

/-- Witness for C7 at the concrete fresh ledger. -/
theorem c7_height_tracks_length_inst :
    chainW.height = (chainW.chain.length : Int) - 1 :=
  ((c7_height_tracks_length.2.2 Hc chainW reachW).1)

/-- C10: when the second colon-separated field of the message does not
parse as an integer (`parseInt` gives `NaN`, modelled as `none`), the
`spendTime >= 300` comparison is false (`NaN` compares false), so
`submitStar` never rejects with the timeout error no matter what the
current time is, and its outcome is decided by the signature check. -/
theorem c10_nan_request_time_never_times_out (H : String → String)
    (verify : String → String → String → Bool) (now : Int)
    (address message signature starJson clock : String) (s : Blockchain)
    (hp : ((jsSplitColon message).get? 1).bind parseIntJS = none) :
    (Blockchain.submitStar H verify now address message signature starJson clock s).1 ≠
      Except.error "Star submission request timed out." ∧
    ((Blockchain.submitStar H verify now address message signature starJson clock s).1 =
        Except.error "Invalid message." ↔
      verify message address signature = false) := by
  simp only [Blockchain.submitStar, hp]
  cases hv : verify message address signature with
  | true => simp [hv]
  | false =>
    simp only [Bool.false_eq_true, if_false]
    refine ⟨?_, trivial⟩
    intro hcontra
    have : ("Invalid message." : String) = "Star submission request timed out." := by
      injection hcontra
    exact absurd this (by decide)

/-- Witness for C10: a message whose embedded time field is not numeric,
submitted arbitrarily late, with an always-true verifier. -/
theorem c10_nan_request_time_never_times_out_inst :
    (Blockchain.submitStar Hc (fun _ _ _ => true) 100000 "addr" "addr:stale:starRegistry"
        "sig" "sj" "1" chainW).1 ≠
      Except.error "Star submission request timed out." ∧
    ((Blockchain.submitStar Hc (fun _ _ _ => true) 100000 "addr" "addr:stale:starRegistry"
        "sig" "sj" "1" chainW).1 = Except.error "Invalid message." ↔
      (fun (_ _ _ : String) => true) "addr:stale:starRegistry" "addr" "sig" = false) :=
  c10_nan_request_time_never_times_out Hc (fun _ _ _ => true) 100000 "addr"
    "addr:stale:starRegistry" "sig" "sj" "1" chainW (by decide)

/-! ### The body codec round-trip (C8) -/

lemma hexVal_hexDigit : ∀ n, n < 16 → hexVal (hexDigit n) = n := by decide

lemma hexPairs_encChar (c : Char) (h : c.toNat < 128) (rest : List Char) :
    hexPairs (encChar c ++ rest) = c :: hexPairs rest := by
  have hb : encChar c = [hexDigit (c.toNat / 16), hexDigit (c.toNat % 16)] := by
    simp only [encChar, utf8Bytes]
    rw [if_pos h]
    rfl
  rw [hb]
  show hexPairs (hexDigit (c.toNat / 16) :: hexDigit (c.toNat % 16) :: rest) = c :: hexPairs rest
  rw [hexPairs, hexVal_hexDigit _ (by omega), hexVal_hexDigit _ (by omega)]
  have he : 16 * (c.toNat / 16) + c.toNat % 16 = c.toNat := by omega
  rw [he, Char.ofNat_toNat]

lemma hexPairs_flatMap (l : List Char) (h : ∀ c ∈ l, c.toNat < 128) :
    hexPairs (l.flatMap encChar) = l := by
  induction l with
  | nil => rfl
  | cons a tl ih =>
    rw [List.flatMap_cons, hexPairs_encChar a (h a (by simp)) _,
      ih (fun c hc => h c (by simp [hc]))]

/-- Decoding inverts the constructor's encoding on ASCII text — and only
there: beyond code point 127 the encoder emits several UTF-8 bytes while
`hex2ascii` turns every byte into its own character. -/
lemma hex2ascii_hexEncode (s : String) (h : ∀ c ∈ s.toList, c.toNat < 128) :
    hex2ascii (hexEncode s) = s := by
  unfold hex2ascii hexEncode
  rw [show (String.mk (s.toList.flatMap encChar)).toList = s.toList.flatMap encChar from rfl,
    hexPairs_flatMap s.toList h]
  rfl

/-- Counterexample to C8 as stated: the round trip is NOT the identity on
every payload.  The JSON text of the payload `"é"` encodes to the UTF-8
bytes `22 c3 a9 22` (hex `22c3a922`), but `hex2ascii` decodes each byte
into its own character, so `decodedBody()` on a height-1 record built
from that payload returns `"Ã©"`, not `"é"` (the parser here plays
`JSON.parse` on the two JSON texts involved). -/
theorem c8_nonascii_roundtrip_fails :
    bNonAscii.body = hexEncode "\"é\"" ∧ 0 < bNonAscii.height ∧
    hex2ascii (hexEncode "\"é\"") ≠ "\"é\"" ∧
    Block.getBData
        (fun s => if s = "\"é\"" then some "é" else
          if s = "\"Ã©\"" then some "Ã©" else none) bNonAscii = Except.ok "Ã©" ∧
    ("Ã©" : String) ≠ "é" := by decide

/-- C8 (amended): `getBData()` on a height-0 record whose body decodes
and parses always rejects with the `Genesis Block` error; on a record at
height > 0 whose body came out of the encoding step from ASCII JSON text
(code points below 128), it returns the original payload unchanged — the
round-trip law `decode(encode(payload)) = payload` restricted to the
range where the byte-wise `hex2ascii` inverts the UTF-8 encoder. -/
theorem c8_getBData_genesis_error_and_ascii_roundtrip (α : Type)
    (parseJson : String → Option α) :
    (∀ b : Block, b.height = 0 → (∃ v, parseJson (hex2ascii b.body) = some v) →
      Block.getBData parseJson b = Except.error "Genesis Block") ∧
    (∀ (jt : String) (p : α) (b : Block), parseJson jt = some p →
      (∀ c ∈ jt.toList, c.toNat < 128) → b.body = hexEncode jt → 0 < b.height →
      Block.getBData parseJson b = Except.ok p) := by
  constructor
  · intro b h0 hv
    obtain ⟨v, hv⟩ := hv
    unfold Block.getBData
    rw [hv, h0]
    rfl
  · intro jt p b hp hascii hbody hpos
    unfold Block.getBData
    rw [hbody, hex2ascii_hexEncode jt hascii, hp]
    simp only [if_pos hpos]

/-- Witness for the amended C8: a concrete parser and two concrete
records with ASCII bodies. -/
theorem c8_getBData_genesis_error_and_ascii_roundtrip_inst :
    Block.getBData (fun s => if s = "7" then some 7 else none) wGenesis =
      Except.error "Genesis Block" ∧
    Block.getBData (fun s => if s = "7" then some 7 else none) wStar = Except.ok 7 :=
  ⟨(c8_getBData_genesis_error_and_ascii_roundtrip Nat
        (fun s => if s = "7" then some 7 else none)).1 wGenesis rfl ⟨7, by decide⟩,
   (c8_getBData_genesis_error_and_ascii_roundtrip Nat
        (fun s => if s = "7" then some 7 else none)).2 "7" 7 wStar (by decide) (by decide)
      rfl (by decide)⟩

/-! ### C5: tampering and `validateChain` -/

/-- The full `validateChain` loop over a chain whose only out-of-band
mutation is the block at position `h` (its height field intact), given
that the mutated block fails its hash comparison: the loop pushes the
invalid-block error (with the height and the freshly recomputed hash the
source interpolates into the message), walks on, adds a broken-link error
at `h + 1` exactly when the successor's stored `previousBlockHash` differs
from the hash `validate()` wrote back into the mutated block, and
completes with the whole chain visited. -/
lemma vcGo_tampered_run (H : String → String) (bs : List Block) (h : Nat) (t : Block)
    (hinv : blocksInv H bs) (h0 : 0 < h) (hlt : h < bs.length) (hth : t.height = h)
    (hvf : (Block.validate H t).1 = false) :
    vcGo H [] ((bs.set h t).map some) [] =
      (Except.ok (ChainErr.invalidBlock h ((Block.validate H t).2).hash ::
        (if h + 1 < bs.length then
          (if ((bs.getD (h + 1) dBlock).previousBlockHash ==
              ((Block.validate H t).2).hash) = true then []
           else [ChainErr.invalidLink (h + 1)])
         else [])),
       (bs.set h (Block.validate H t).2).map some) := by
  set t2 : Block := (Block.validate H t).2 with ht2
  have hvt : Block.validate H t = (false, t2) := by
    rw [ht2, ← hvf]
  have hth2 : t2.height = h := by
    rw [ht2]
    exact hth
  have hlen0 : (bs.set h t).length = bs.length := List.length_set bs h t
  have hlen1 : (bs.set h t2).length = bs.length := List.length_set bs h t2
  have hIdx0 : ∀ i, i < (bs.set h t).length → ((bs.set h t).getD i dBlock).height = i := by
    intro i hi
    rw [hlen0] at hi
    by_cases hih : h = i
    · subst hih
      rw [getD_set_self bs h t dBlock hlt]
      exact hth
    · rw [getD_set_ne bs t dBlock hih]
      exact (hinv i hi).1
  have hIdx1 : ∀ i, i < (bs.set h t2).length → ((bs.set h t2).getD i dBlock).height = i := by
    intro i hi
    rw [hlen1] at hi
    by_cases hih : h = i
    · subst hih
      rw [getD_set_self bs h t2 dBlock hlt]
      exact hth2
    · rw [getD_set_ne bs t2 dBlock hih]
      exact (hinv i hi).1
  have segA : vcGo H [] ((bs.set h t).map some) [] =
      vcGo H (((bs.set h t).take h).map some) (((bs.set h t).drop h).map some) [] := by
    have := vcGo_seg H (bs.set h t) hIdx0 h 0 h [] (by omega) (Nat.zero_le _)
      (by rw [hlen0]; omega)
      (fun j hj1 hj2 => by
        rw [getD_set_ne bs t dBlock (by omega)]
        exact (hinv j (by omega)).2.1)
      (fun j hj1 hj2 hj3 => by
        rw [getD_set_ne bs t dBlock (by omega), getD_set_ne bs t dBlock (by omega)]
        exact (hinv j (by omega)).2.2.2 hj2)
    simpa using this
  have hdrop0 : (bs.set h t).drop h = t :: bs.drop (h + 1) := by
    rw [drop_getD_cons (bs.set h t) dBlock h (by rw [hlen0]; omega),
      getD_set_self bs h t dBlock hlt, drop_set_succ]
  have htake0 : (bs.set h t).take h = bs.take h := take_set_same bs h t
  have htake1 : (bs.set h t2).take (h + 1) = bs.take h ++ [t2] := by
    rw [take_succ_getD (bs.set h t2) dBlock h (by rw [hlen1]; omega),
      getD_set_self bs h t2 dBlock hlt, take_set_same]
  have hdrop1 : (bs.set h t2).drop (h + 1) = bs.drop (h + 1) := drop_set_succ bs h t2
  have segB : vcGo H (((bs.set h t).take h).map some) (((bs.set h t).drop h).map some) [] =
      vcGo H (((bs.set h t2).take (h + 1)).map some)
        (((bs.set h t2).drop (h + 1)).map some)
        [ChainErr.invalidBlock h t2.hash] := by
    rw [hdrop0, htake0, htake1, hdrop1, List.map_cons]
    simp only [vcGo, hvt, Bool.false_eq_true, if_false, List.nil_append, hth2,
      List.map_append, List.map_cons, List.map_nil]
  rw [segA, segB]
  by_cases hsuf : h + 1 < bs.length
  · rw [if_pos hsuf]
    have hgd1 : (bs.set h t2).getD (h + 1) dBlock = bs.getD (h + 1) dBlock :=
      getD_set_ne bs t2 dBlock (by omega)
    have hfd : (bs.set h t2).drop (h + 1) =
        (bs.set h t2).getD (h + 1) dBlock :: (bs.set h t2).drop (h + 2) :=
      drop_getD_cons _ dBlock (h + 1) (by rw [hlen1]; omega)
    have hval1 : Block.validate H ((bs.set h t2).getD (h + 1) dBlock) =
        (true, (bs.set h t2).getD (h + 1) dBlock) := by
      rw [hgd1]
      exact validate_sealed H _ (hinv (h + 1) hsuf).2.1
    have hh1 : ((bs.set h t2).getD (h + 1) dBlock).height = h + 1 :=
      hIdx1 (h + 1) (by rw [hlen1]; omega)
    have htake2 : (bs.set h t2).take (h + 2) =
        (bs.set h t2).take (h + 1) ++ [(bs.set h t2).getD (h + 1) dBlock] :=
      take_succ_getD _ dBlock (h + 1) (by rw [hlen1]; omega)
    have segD : ∀ e : List ChainErr,
        vcGo H (((bs.set h t2).take (h + 2)).map some)
          (((bs.set h t2).drop (h + 2)).map some) e =
        (Except.ok e, (bs.set h t2).map some) := by
      intro e
      have hseg := vcGo_seg H (bs.set h t2) hIdx1
        ((bs.set h t2).length - (h + 2)) (h + 2) (bs.set h t2).length e rfl
        (by rw [hlen1]; omega) le_rfl
        (fun j hj1 hj2 => by
          rw [hlen1] at hj2
          rw [getD_set_ne bs t2 dBlock (by omega)]
          exact (hinv j hj2).2.1)
        (fun j hj1 hj2 hj3 => by
          rw [hlen1] at hj3
          rw [getD_set_ne bs t2 dBlock (by omega), getD_set_ne bs t2 dBlock (by omega)]
          exact (hinv j hj3).2.2.2 hj2)
      rw [hseg, List.take_of_length_le le_rfl, List.drop_eq_nil_of_le le_rfl, List.map_nil]
      simp only [vcGo]
    rw [hfd, List.map_cons]
    simp only [vcGo, hval1, arr_assemble (bs.set h t2) (h + 1) (by rw [hlen1]; omega),
      any_isNone_map_some, filterMap_id_map_some, Bool.false_eq_true, if_false,
      eq_self_iff_true, if_true]
    rw [hh1, if_pos (Nat.succ_pos h)]
    simp only [Nat.add_sub_cancel]
    rw [filter_height_head (bs.set h t2) 0 h
        (fun i hi => by rw [hIdx1 i hi]; omega) (by omega)
        (by simp only [Nat.zero_add]; rw [hlen1]; omega)]
    simp only [Nat.sub_zero, getD_set_self bs h t2 dBlock hlt, hgd1]
    by_cases hcnd : ((bs.getD (h + 1) dBlock).previousBlockHash == t2.hash) = true
    · rw [if_pos hcnd, if_pos hcnd]
      have hdone2 : ((bs.set h t2).take (h + 1)).map some ++
          [some (bs.getD (h + 1) dBlock)] = ((bs.set h t2).take (h + 2)).map some := by
        rw [htake2, List.map_append, List.map_cons, List.map_nil, hgd1]
      rw [hdone2, segD]
    · rw [if_neg hcnd, if_neg hcnd]
      have hdone2 : ((bs.set h t2).take (h + 1)).map some ++
          [some (bs.getD (h + 1) dBlock)] = ((bs.set h t2).take (h + 2)).map some := by
        rw [htake2, List.map_append, List.map_cons, List.map_nil, hgd1]
      rw [hdone2, segD]
      rfl
  · rw [if_neg hsuf]
    have hdones : (bs.set h t2).take (h + 1) = bs.set h t2 :=
      List.take_of_length_le (by rw [hlen1]; omega)
    have hdrole : (bs.set h t2).drop (h + 1) = [] :=
      List.drop_eq_nil_of_le (by rw [hlen1]; omega)
    rw [hdones, hdrole, List.map_nil]
    simp only [vcGo]

/-- Unfolding the `validateChain` wrapper when the loop resolved with a
non-empty error log. -/
lemma validateChain_errs (H : String → String) (s : Blockchain) (x : ChainErr)
    (tail : List ChainErr) (c : List (Option Block))
    (hr : vcGo H [] s.chain [] = (Except.ok (x :: tail), c)) :
    (Blockchain.validateChain H s).1 = VCOut.errs (x :: tail) := by
  unfold Blockchain.validateChain
  rw [hr]
  simp

/-- C5 (amended): in a well-formed chain in which exactly one record, at
position `h > 0`, has been mutated out-of-band WITHOUT touching its
height field — either its stored hash changed, or its content changed and
the digest separates the serialisations — `isValid()` resolves false on
that record, and one `validateChain()` call resolves (it does not stop or
crash) with a report containing the tampered-record error at height `h`
followed by a broken-link error at height `h + 1` exactly when the hash
`validate()` wrote back differs from the stored hash the successor links
to (so there is a follow-up link error for content mutations, and none
for hash-only mutations). -/
theorem c5_tampered_record_reported_and_validation_continues
    (H : String → String) (bs : List Block) (h : Nat) (t : Block)
    (hinv : blocksInv H bs) (h0 : 0 < h) (hlt : h < bs.length)
    (hth : t.height = h)
    (hmut : (Block.clearHash t = Block.clearHash (bs.getD h dBlock) ∧
        t.hash ≠ (bs.getD h dBlock).hash) ∨
      (t.hash = (bs.getD h dBlock).hash ∧
        H (Block.serialize (Block.clearHash t)) ≠
          H (Block.serialize (Block.clearHash (bs.getD h dBlock))))) :
    (Block.validate H t).1 = false ∧
    (Blockchain.validateChain H
        { chain := (bs.set h t).map some, height := (bs.length : Int) - 1 }).1 =
      VCOut.errs (ChainErr.invalidBlock h ((Block.validate H t).2).hash ::
        (if h + 1 < bs.length then
          (if ((Block.validate H t).2).hash = (bs.getD h dBlock).hash then []
           else [ChainErr.invalidLink (h + 1)])
         else [])) := by
  have hvf : (Block.validate H t).1 = false :=
    validate_fst_false H t (bs.getD h dBlock) (hinv h hlt).2.1 hmut
  refine ⟨hvf, ?_⟩
  have hrun := vcGo_tampered_run H bs h t hinv h0 hlt hth hvf
  have htail : (if h + 1 < bs.length then
        (if ((bs.getD (h + 1) dBlock).previousBlockHash ==
            ((Block.validate H t).2).hash) = true then []
         else [ChainErr.invalidLink (h + 1)])
       else []) =
      (if h + 1 < bs.length then
        (if ((Block.validate H t).2).hash = (bs.getD h dBlock).hash then []
         else [ChainErr.invalidLink (h + 1)])
       else []) := by
    by_cases hsuf : h + 1 < bs.length
    · rw [if_pos hsuf, if_pos hsuf]
      have hprev : (bs.getD (h + 1) dBlock).previousBlockHash = (bs.getD h dBlock).hash := by
        have := (hinv (h + 1) hsuf).2.2.2 (by omega)
        simpa using this
      rw [hprev]
      rcases hmut with ⟨hc1, hc2⟩ | ⟨hc1, hc2⟩
      · have heq : ((Block.validate H t).2).hash = (bs.getD h dBlock).hash := by
          show some (H (Block.serialize (Block.clearHash t))) = _
          rw [hc1]
          exact ((hinv h hlt).2.1).symm
        simp only [heq, beq_self_eq_true, eq_self_iff_true, if_true]
      · have hne : ((Block.validate H t).2).hash ≠ (bs.getD h dBlock).hash := by
          show some (H (Block.serialize (Block.clearHash t))) ≠ _
          rw [(hinv h hlt).2.1]
          intro hx
          exact hc2 (Option.some.inj hx)
        rw [if_neg (fun hx => hne ((beq_iff_eq.mp hx).symm)), if_neg hne]
    · rw [if_neg hsuf, if_neg hsuf]
  rw [htail] at hrun
  exact validateChain_errs H _ _ _ _ hrun

/-- Witness for the amended C5: the concrete three-block chain with the
hash field of the height-1 record mutated. -/
theorem c5_tampered_record_reported_and_validation_continues_inst :
    (Block.validate Hc tHash).1 = false ∧
    (Blockchain.validateChain Hc
        { chain := ([gBw, b1w, b2w].set 1 tHash).map some,
          height := (([gBw, b1w, b2w].length : Int)) - 1 }).1 =
      VCOut.errs (ChainErr.invalidBlock 1 ((Block.validate Hc tHash).2).hash ::
        (if 1 + 1 < [gBw, b1w, b2w].length then
          (if ((Block.validate Hc tHash).2).hash = ([gBw, b1w, b2w].getD 1 dBlock).hash then []
           else [ChainErr.invalidLink (1 + 1)])
         else [])) :=
  c5_tampered_record_reported_and_validation_continues Hc [gBw, b1w, b2w] 1 tHash
    (by decide) (by decide) (by decide) (by decide) (Or.inl (by decide))

/-- Counterexample to C5 as stated: mutating the `height` field (one
field of a sealed record) makes `isValid()` return false, but a
`validateChain()` call does NOT report a tampered record at that height
and continue — the successor's predecessor lookup comes back empty
(`filter(...)[0]` is `undefined`) and reading `.hash` from it throws, so
the promise rejects and no error report is ever resolved. -/
theorem c5_height_mutation_crashes_validateChain :
    blocksInv H1 [gBw, b1w, b2w] ∧
    tHeight.hash = b1w.hash ∧ tHeight.body = b1w.body ∧ tHeight.time = b1w.time ∧
    tHeight.previousBlockHash = b1w.previousBlockHash ∧ tHeight.owner = b1w.owner ∧
    tHeight.height ≠ b1w.height ∧
    (Block.validate H1 tHeight).1 = false ∧
    (Blockchain.validateChain H1
        { chain := ([gBw, b1w, b2w].set 1 tHeight).map some, height := 2 }).1 =
      VCOut.crashed := by
  decide
